import Mathlib

/-!
Verification of the YouTube transcript-processing pipeline.

This file is a shallow embedding, in Lean 4, of the pure core of the
repository: the transcript passage compactor and the filename sanitizer
(strings modelled as lists of characters, Python string methods
implemented explicitly), the video-id extractor together with a model of
the standard-library URL parsing it calls, the LLM adapter's passage
extraction and prompt-cache key derivation (stable JSON serialization,
CRC-32, shard selection), the transcript joining, and the four-stage
pipeline driver with its file-existence memoization.

Python strings are modelled as `List Char` where proofs manipulate
structure, and as `String` at the outer API.  Machine integers appear
only in the CRC-32 computation, modelled as `Nat` kept below `2 ^ 32`.
All definitions are structurally recursive so that concrete inputs
evaluate inside the kernel.
-/

namespace YTPipeline

/-- Characters that Python `str.split()` / `str.strip()` treat as
whitespace (the Unicode whitespace set used by `str.isspace`). -/
def pyIsSpace (c : Char) : Bool :=
  let n := c.toNat
  (9 ≤ n && n ≤ 13) || (28 ≤ n && n ≤ 31) || n == 32 || n == 133 || n == 160 ||
  n == 0x1680 || (0x2000 ≤ n && n ≤ 0x200A) || n == 0x2028 || n == 0x2029 ||
  n == 0x202F || n == 0x205F || n == 0x3000

/-- Worker for Python `str.split()`: walks the characters, accumulating
the current word in reverse in `cur`, emitting it at each whitespace
boundary. -/
def splitWsCore : List Char → List Char → List (List Char)
  | [], cur => if cur = [] then [] else [cur.reverse]
  | c :: cs, cur =>
    if pyIsSpace c then
      if cur = [] then splitWsCore cs []
      else cur.reverse :: splitWsCore cs []
    else splitWsCore cs (c :: cur)

/-- Python `str.split()` with no arguments: split on runs of whitespace,
discarding empty fields. -/
def splitWs (l : List Char) : List (List Char) := splitWsCore l []

/-- Python `sep.join(parts)` on character lists. -/
def joinSep (sep : List Char) : List (List Char) → List Char
  | [] => []
  | [w] => w
  | w :: ws => w ++ sep ++ joinSep sep ws

/-- Python `sep.join(parts)` on strings. -/
def joinStrings (sep : String) : List String → String
  | [] => ""
  | [s] => s
  | s :: ss => s ++ sep ++ joinStrings sep ss

/-- Python `s.strip()`: remove leading and trailing whitespace. -/
def pyStrip (l : List Char) : List Char :=
  ((l.dropWhile pyIsSpace).reverse.dropWhile pyIsSpace).reverse

/-- The compaction step of `extract_transcript_passage`:
`" ".join(full_text.split())`. -/
def compactWs (l : List Char) : List Char := joinSep [' '] (splitWs l)

/-- Python `s.rsplit(" ", 1)[0]`: everything before the last space, or the
whole string when it contains no space. -/
def rsplitLastSpace (l : List Char) : List Char :=
  match l.reverse.dropWhile (fun d => d ≠ ' ') with
  | [] => l
  | _ :: rest => rest.reverse

/-- `extract_transcript_passage` from `app/main.py`:
compact whitespace; if the compacted text fits in `max_chars` return it,
otherwise take the first `max_chars` characters, trim back to the last
space, and append `"..."`. -/
def extract_transcript_passage (full_text : List Char) (max_chars : Nat) : List Char :=
  let compact := compactWs full_text
  if compact.length ≤ max_chars then compact
  else rsplitLastSpace (compact.take max_chars) ++ ['.', '.', '.']

/-- The first local of `sanitize_filename` in `utils/youtube.py`:
`"".join(ch if ch.isalnum() or ch in {" ", "-", "_"} else "_" for ch in
text)`.  Python's Unicode-aware `str.isalnum` is abstracted as the
predicate `isAlnum` (it agrees with `Char.isAlphanum` on ASCII). -/
def sanitizeSafe (isAlnum : Char → Bool) (text : List Char) : List Char :=
  text.map (fun ch => if isAlnum ch || ch ∈ [' ', '-', '_'] then ch else '_')

/-- The second local of `sanitize_filename`:
`"_".join(part for part in safe.split() if part)`. -/
def sanitizeJoined (isAlnum : Char → Bool) (text : List Char) : List Char :=
  joinSep ['_'] ((splitWs (sanitizeSafe isAlnum text)).filter (fun part => part ≠ []))

/-- `sanitize_filename` from `utils/youtube.py`: replace every character
that is neither alphanumeric nor space, dash or underscore by an
underscore, join the whitespace-split parts with underscores, truncate
to 120 characters, and fall back to `"youtube_video"` when the result is
empty. -/
def sanitize_filename (isAlnum : Char → Bool) (text : List Char) : List Char :=
  if sanitizeJoined isAlnum text = [] then ("youtube_video".data)
  else (sanitizeJoined isAlnum text).take 120

/-! ### URL parsing (model of `urllib.parse` as used by `extract_video_id`)

`urlparse`/`parse_qs` are standard-library collaborators; they are
modelled here to the extent `extract_video_id` exercises them: fragment
and scheme stripping, netloc/hostname extraction (userinfo and port
dropped, host lowercased; IPv6 bracket syntax not modelled), path/query
split, and `parse_qsl` with default arguments (fields without `=` and
fields with empty values are dropped, `+` decodes to space, single-byte
percent escapes are decoded; multi-byte UTF-8 percent sequences are not
modelled). -/

/-- Split at the first occurrence of `sep`: returns the part before it
and, when present, the part after it. -/
def splitAtFirst (sep : Char) : List Char → List Char × Option (List Char)
  | [] => ([], none)
  | c :: cs =>
    if c = sep then ([], some cs)
    else
      let r := splitAtFirst sep cs
      (c :: r.1, r.2)

/-- Characters allowed in a URL scheme. -/
def isSchemeChar (c : Char) : Bool := c.isAlphanum || c == '+' || c == '-' || c == '.'

/-- Drop a leading `scheme:` when the part before the first colon is a
valid scheme, as `urllib.parse.urlsplit` does. -/
def dropScheme (l : List Char) : List Char :=
  match splitAtFirst ':' l with
  | (c :: pre, some post) => if c.isAlpha && (c :: pre).all isSchemeChar then post else l
  | _ => l

/-- Split off the netloc when the input starts with `//`: the netloc runs
until the next `/`, `?` or `#`. -/
def splitNetloc (l : List Char) : List Char × List Char :=
  match l with
  | '/' :: '/' :: rest =>
    (rest.takeWhile (fun c => c ≠ '/' && c ≠ '?' && c ≠ '#'),
     rest.dropWhile (fun c => c ≠ '/' && c ≠ '?' && c ≠ '#'))
  | _ => ([], l)

/-- The part of the netloc after the last `@` (whole netloc when there is
no userinfo). -/
def afterLastAt (l : List Char) : List Char :=
  (l.reverse.takeWhile (fun c => c ≠ '@')).reverse

/-- Hostname of a netloc: userinfo and port removed, lowercased, `none`
when empty — as `urllib.parse`'s `hostname` attribute. -/
def hostnameOfNetloc (netloc : List Char) : Option String :=
  let host := (afterLastAt netloc).takeWhile (fun c => c ≠ ':')
  if host = [] then none else some (String.mk (host.map Char.toLower))

/-- Result of URL parsing: the fields of `urllib.parse.urlparse` that
`extract_video_id` reads. -/
structure ParsedUrl where
  hostname : Option String
  path : String
  query : String
deriving DecidableEq, Repr

/-- Model of `urllib.parse.urlparse` restricted to hostname, path and
query. -/
def urlparse (url : String) : ParsedUrl :=
  let noFrag := (splitAtFirst '#' url.data).1
  let rest := dropScheme noFrag
  let netlocRem := splitNetloc rest
  let pathQuery := splitAtFirst '?' netlocRem.2
  { hostname := hostnameOfNetloc netlocRem.1
  , path := String.mk pathQuery.1
  , query := String.mk (pathQuery.2.getD []) }

/-- Split on every occurrence of `sep`, keeping empty fields (Python
`str.split(sep)`), via a structural accumulator. -/
def splitOnCharCore (sep : Char) : List Char → List Char → List (List Char)
  | [], cur => [cur.reverse]
  | c :: cs, cur =>
    if c = sep then cur.reverse :: splitOnCharCore sep cs []
    else splitOnCharCore sep cs (c :: cur)

/-- Python `str.split(sep)` keeping empty fields. -/
def splitOnChar (sep : Char) (l : List Char) : List (List Char) :=
  splitOnCharCore sep l []

/-- Value of a hexadecimal digit, if any. -/
def hexVal (c : Char) : Option Nat :=
  if '0' ≤ c ∧ c ≤ '9' then some (c.toNat - 48)
  else if 'a' ≤ c ∧ c ≤ 'f' then some (c.toNat - 87)
  else if 'A' ≤ c ∧ c ≤ 'F' then some (c.toNat - 55)
  else none

/-- Decode `%XX` escapes (single-byte model of `urllib.parse.unquote`). -/
def percentDecode : List Char → List Char
  | [] => []
  | '%' :: a :: b :: rest =>
    match hexVal a, hexVal b with
    | some x, some y => Char.ofNat (16 * x + y) :: percentDecode rest
    | _, _ => '%' :: percentDecode (a :: b :: rest)
  | c :: rest => c :: percentDecode rest

/-- `urllib.parse.unquote_plus`: `+` becomes a space, then percent
escapes are decoded. -/
def unquotePlus (l : List Char) : List Char :=
  percentDecode (l.map (fun c => if c = '+' then ' ' else c))

/-- `urllib.parse.parse_qsl` with default arguments: split the query on
`&`; drop empty fields, fields without `=` and fields whose value is
empty; decode names and values. -/
def parse_qsl (qs : List Char) : List (List Char × List Char) :=
  (splitOnChar '&' qs).foldr
    (fun field acc =>
      if field = [] then acc
      else
        match splitAtFirst '=' field with
        | (_, none) => acc
        | (nm, some value) =>
          if value = [] then acc else (unquotePlus nm, unquotePlus value) :: acc)
    []

/-- All values bound to `key` by `parse_qs`, in query order; `parse_qs`
returns a dict of lists, and `query["v"][0]` is the head of this list. -/
def qsValues (pairs : List (List Char × List Char)) (key : List Char) : List (List Char) :=
  (pairs.filter (fun p => p.1 = key)).map (fun p => p.2)

/-- The exact host allow-list of `extract_video_id`. -/
def allowedHosts : List String := ["www.youtube.com", "youtube.com", "m.youtube.com"]

/-- `extract_video_id` from `utils/youtube.py`: `youtu.be` URLs use the
path with leading slashes stripped; the three allowed youtube hosts use
the first `v` query value; everything else raises `ValueError`, modelled
as `Except.error`. -/
def extract_video_id (url : String) : Except String String :=
  let parsed := urlparse url
  if parsed.hostname = some "youtu.be" then
    Except.ok (String.mk (parsed.path.data.dropWhile (fun c => c = '/')))
  else if parsed.hostname ∈ allowedHosts.map some then
    match qsValues (parse_qsl parsed.query.data) "v".data with
    | v :: _ => Except.ok (String.mk v)
    | [] => Except.error ("Unsupported YouTube URL format: " ++ url)
  else Except.error ("Unsupported YouTube URL format: " ++ url)

/-! ### Stable JSON serialization, passage extraction and the prompt
cache key (`utils/llm_client.py`)

Payload values are modelled as JSON scalars (`None`, booleans, integers,
strings); every call site in the repository (`utils/agents.py`) passes
flat string-valued dicts.  A payload is an association list with the
keys in insertion order, as a Python dict. -/

/-- A JSON scalar value of a user payload. -/
inductive JValue where
  | null : JValue
  | bool : Bool → JValue
  | num : Int → JValue
  | str : String → JValue
deriving DecidableEq, Repr

/-- Lowercase hexadecimal digit. -/
def hexDigit (n : Nat) : Char :=
  if n < 10 then Char.ofNat (48 + n) else Char.ofNat (87 + n)

/-- A `\uXXXX` escape with four lowercase hex digits, as produced by
Python `json.dumps` with `ensure_ascii=True`. -/
def uEscape (n : Nat) : String :=
  "\\u" ++ String.mk [hexDigit (n / 4096 % 16), hexDigit (n / 256 % 16),
                      hexDigit (n / 16 % 16), hexDigit (n % 16)]

/-- Escape one character as Python `json.dumps` does with
`ensure_ascii=True`: short escapes for the usual control characters,
`\uXXXX` for other controls and for every non-ASCII character (surrogate
pairs above the BMP), everything in `0x20`–`0x7E` except `"` and `\`
kept verbatim. -/
def jsonEscapeChar (c : Char) : String :=
  let n := c.toNat
  if c = '"' then "\\\""
  else if c = '\\' then "\\\\"
  else if c = '\n' then "\\n"
  else if c = '\r' then "\\r"
  else if c = '\t' then "\\t"
  else if n = 8 then "\\b"
  else if n = 12 then "\\f"
  else if n < 32 then uEscape n
  else if n < 127 then String.mk [c]
  else if n < 65536 then uEscape n
  else uEscape (0xD800 + (n - 65536) / 1024) ++ uEscape (0xDC00 + (n - 65536) % 1024)

/-- JSON string literal with Python's `ensure_ascii` escaping. -/
def jsonQuote (s : String) : String :=
  "\"" ++ joinStrings "" (s.data.map jsonEscapeChar) ++ "\""

/-- Serialize one JSON scalar as `json.dumps` does. -/
def jsonScalar : JValue → String
  | .null => "null"
  | .bool true => "true"
  | .bool false => "false"
  | .num n => toString n
  | .str s => jsonQuote s

/-- Code-point lexicographic comparison on character lists — Python's
`<` on `str`, used by `sorted`. -/
def lexLt : List Char → List Char → Bool
  | [], [] => false
  | [], _ :: _ => true
  | _ :: _, [] => false
  | a :: as, b :: bs =>
    if a.toNat < b.toNat then true
    else if b.toNat < a.toNat then false
    else lexLt as bs

/-- Stable insertion into a key-sorted association list: an element is
placed before every strictly greater key and after equal ones already
present later in the original list (the fold below runs right to left,
so equal keys keep their original order, as Python `sorted`). -/
def insertSorted (p : String × JValue) : List (String × JValue) → List (String × JValue)
  | [] => [p]
  | q :: qs => if lexLt q.1.data p.1.data then q :: insertSorted p qs else p :: q :: qs

/-- Sort an association list by key (stable, code-point order), as
`json.dumps(..., sort_keys=True)`. -/
def sortByKey (l : List (String × JValue)) : List (String × JValue) :=
  l.foldr insertSorted []

/-- `_stable_json_dumps` from `utils/llm_client.py`:
`json.dumps(payload, ensure_ascii=True, separators=(",", ":"),
sort_keys=True)` on a flat payload dict. -/
def _stable_json_dumps (payload : List (String × JValue)) : String :=
  "\x7b" ++ joinStrings ","
      ((sortByKey payload).map (fun kv => jsonQuote kv.1 ++ ":" ++ jsonScalar kv.2)) ++ "\x7d"

/-- First value bound to `k` in the payload (`payload.get(k)`). -/
def lookupKey (payload : List (String × JValue)) (k : String) : Option JValue :=
  (payload.find? (fun kv => kv.1 = k)).map (fun kv => kv.2)

/-- `isinstance(value, str) and value.strip()`: the value when it is a
string that is nonempty after stripping. -/
def nonEmptyStrVal : Option JValue → Option String
  | some (.str s) => if pyStrip s.data = [] then none else some s
  | _ => none

/-- `_extract_passage` from `utils/llm_client.py`: first non-empty string
value among the keys `transcript`, `passage`, `text`, `content` in that
order, else the stable JSON serialization of the whole payload. -/
def _extract_passage (payload : List (String × JValue)) : String :=
  match nonEmptyStrVal (lookupKey payload "transcript") with
  | some s => s
  | none =>
    match nonEmptyStrVal (lookupKey payload "passage") with
    | some s => s
    | none =>
      match nonEmptyStrVal (lookupKey payload "text") with
      | some s => s
      | none =>
        match nonEmptyStrVal (lookupKey payload "content") with
        | some s => s
        | none => _stable_json_dumps payload

/-- One bit of the CRC-32 computation (polynomial `0xEDB88320`,
reflected): shift right, XOR the polynomial when the low bit was set. -/
def crc32Step (c : Nat) : Nat :=
  if c % 2 = 1 then (c / 2) ^^^ 0xEDB88320 else c / 2

/-- Iterate `crc32Step`. -/
def crc32Bits : Nat → Nat → Nat
  | 0, c => c
  | k + 1, c => crc32Bits k (crc32Step c)

/-- Fold one byte into the running CRC. -/
def crc32Update (crc b : Nat) : Nat := crc32Bits 8 (crc ^^^ b)

/-- `zlib.crc32(data) & 0xFFFFFFFF` (`_crc32_u32` in the source): initial
value `0xFFFFFFFF`, final complement, masked to 32 bits. -/
def _crc32_u32 (bytes : List Nat) : Nat :=
  ((bytes.foldl crc32Update 0xFFFFFFFF) ^^^ 0xFFFFFFFF) % 2 ^ 32

/-- UTF-8 encoding of one character, as byte values. -/
def utf8EncodeCharNat (c : Char) : List Nat :=
  let n := c.toNat
  if n < 0x80 then [n]
  else if n < 0x800 then [0xC0 + n / 64, 0x80 + n % 64]
  else if n < 0x10000 then [0xE0 + n / 4096, 0x80 + n / 64 % 64, 0x80 + n % 64]
  else [0xF0 + n / 262144, 0x80 + n / 4096 % 64, 0x80 + n / 64 % 64, 0x80 + n % 64]

/-- `text.encode("utf-8")` as a list of byte values. -/
def utf8Bytes (s : String) : List Nat :=
  s.data.foldr (fun c acc => utf8EncodeCharNat c ++ acc) []

/-- The static model alias table of `invoke_llm`. -/
def alias_map : List (String × String) :=
  [("gpt40", "gpt-4o"), ("gpt-40", "gpt-4o"), ("gpt4o", "gpt-4o"),
   ("gpt4o-mini", "gpt-4o-mini"), ("gpt-4o-mini", "gpt-4o-mini"),
   ("gpt5-low", "gpt-5"), ("gpt5-medium", "gpt-5"), ("gpt5-high", "gpt-5"),
   ("gpt5-nano", "gpt-5-nano"), ("gpt-5-nano", "gpt-5-nano"),
   ("gpt5-1", "gpt-5-1")]

/-- `alias_map.get(model_name, model_name)`: unknown names pass through. -/
def resolveModel (modelName : String) : String :=
  (((alias_map.find? (fun kv => kv.1 = modelName)).map (fun kv => kv.2)).getD modelName)

/-- `_build_prompt_cache_key`: the f-string
`"{prefix_version}:{model}:shard-{shard}"`. -/
def _build_prompt_cache_key (prefixVersion model : String) (shard : Nat) : String :=
  prefixVersion ++ ":" ++ model ++ ":shard-" ++ toString shard

/-- Shard selection in `invoke_llm`: `0` unless more than one shard is
configured, else CRC-32 of the runtime JSON modulo the shard count. -/
def deriveShard (shards : Nat) (runtimeJson : String) : Nat :=
  if shards > 1 then _crc32_u32 (utf8Bytes runtimeJson) % shards else 0

/-- The prompt-cache key computed by `invoke_llm`, with the process-wide
environment values (`PROMPT_VERSION`, `PROMPT_CACHE_SHARDS`) lifted to
arguments: resolve the model alias, extract the passage, serialize
`{"passage": passage}` and build the composite key. -/
def invoke_llm_cache_key (promptVersion : String) (shards : Nat) (modelName : String)
    (payload : List (String × JValue)) : String :=
  let chosenModel := resolveModel modelName
  let passage := _extract_passage payload
  let runtimeJson := _stable_json_dumps [("passage", JValue.str passage)]
  _build_prompt_cache_key promptVersion chosenModel (deriveShard shards runtimeJson)

/-! ### Transcript joining (`fetch_transcript_text` in `utils/youtube.py`) -/

/-- One transcript entry's `text` field: `none` when the key is absent.
`entry.get("text", "")` yields `""` in the `none` case. -/
abbrev TranscriptEntry := Option String

/-- The joining step of `fetch_transcript_text`:
`" ".join(entry.get("text", "").strip() for entry in entries if
entry.get("text"))` — entries whose raw text is missing or empty are
dropped, the remaining texts are stripped and joined with single
spaces. -/
def fetch_transcript_join (entries : List TranscriptEntry) : String :=
  joinStrings " "
    ((entries.filter (fun e => e.getD "" ≠ "")).map
      (fun e => String.mk (pyStrip (e.getD "").data)))

/-! ### Pipeline driver (`main` in `app/main.py`)

The filesystem is modelled as the four per-stem stage artifacts, each
optionally present; the LLM adapter is an abstract function from the
stage input to a response that is either plain text or a list of
`{"text": ...}` items (the shapes `main` distinguishes).  Indexing an
empty list response raises, modelled as `Except.error`. -/

/-- A stage response: plain text, or a list of item texts. -/
inductive LLMResponse where
  | text : String → LLMResponse
  | items : List String → LLMResponse

/-- The on-disk stage artifacts for one stem (`None` = file absent). -/
structure StageFiles where
  passage : Option String
  corrected : Option String
  translated : Option String
  dialogue : Option String
deriving DecidableEq, Repr

/-- `build_output_paths` from `app/main.py`. -/
structure OutputPaths where
  passage : String
  corrected : String
  translated : String
  dialogue : String
deriving DecidableEq, Repr

/-- The four deterministic stage paths for a stem. -/
def build_output_paths (stem outputDir : String) : OutputPaths :=
  { passage := outputDir ++ "/" ++ stem ++ "_passage.txt"
  , corrected := outputDir ++ "/" ++ stem ++ "_corrected.txt"
  , translated := outputDir ++ "/" ++ stem ++ "_tr_istanbul.txt"
  , dialogue := outputDir ++ "/" ++ stem ++ "_dialogue.txt" }

/-- Flatten a list-or-text response as `main` does
(`corrected[0]["text"]` when the response is a list); indexing an empty
list raises. -/
def flattenResponse : LLMResponse → Except String String
  | .text s => Except.ok s
  | .items [] => Except.error "IndexError: list index out of range"
  | .items (h :: _) => Except.ok h

/-- One LLM stage of `main`: reuse the cached artifact when the file
exists (no invocation), otherwise invoke the model once and flatten. -/
def runStage (cached : Option String) (respond : String → LLMResponse) (input : String) :
    Except String (String × Nat) :=
  match cached with
  | some t => Except.ok (t, 0)
  | none => (flattenResponse (respond input)).map (fun r => (r, 1))

/-- Result of one pipeline run: the artifacts on disk afterwards, the
four stage outputs, and how many LLM invocations each LLM stage made. -/
structure PipelineResult where
  files : StageFiles
  passageOut : String
  correctedOut : String
  translatedOut : String
  dialogueOut : String
  callsCorrected : Nat
  callsTranslated : Nat
  callsDialogue : Nat
deriving DecidableEq, Repr

/-- The LLM stage chain of `main`, given the passage value the run
settled on: each stage reuses its artifact or invokes its agent on the
previous stage's output and persists the flattened response. -/
def run_pipeline_from (files : StageFiles) (passage : String)
    (correctFn translateFn dialogueFn : String → LLMResponse) :
    Except String PipelineResult :=
  match runStage files.corrected correctFn passage with
  | .error e => .error e
  | .ok (corrected, c1) =>
    match runStage files.translated translateFn corrected with
    | .error e => .error e
    | .ok (translated, c2) =>
      match runStage files.dialogue dialogueFn translated with
      | .error e => .error e
      | .ok (dlg, c3) =>
        .ok { files := { passage := some passage, corrected := some corrected
                       , translated := some translated, dialogue := some dlg }
            , passageOut := passage, correctedOut := corrected
            , translatedOut := translated, dialogueOut := dlg
            , callsCorrected := c1, callsTranslated := c2, callsDialogue := c3 }

/-- The stage chain of `main` after the transcript fetch: the passage
stage reuses the existing artifact or persists `freshPassage`
(`passage = load(...) if exists else fresh`), then the LLM stages run. -/
def run_pipeline (files : StageFiles) (freshPassage : String)
    (correctFn translateFn dialogueFn : String → LLMResponse) :
    Except String PipelineResult :=
  run_pipeline_from files (files.passage.getD freshPassage) correctFn translateFn dialogueFn

/-! ### Properties of the Python string primitives -/

/-- Dropping a prefix never lengthens a list. -/
theorem length_dropWhile_le_len {α : Type} (p : α → Bool) (l : List α) :
    (l.dropWhile p).length ≤ l.length := by
  induction l with
  | nil => simp [List.dropWhile]
  | cons a l ih =>
    simp only [List.dropWhile]
    split
    · exact Nat.le_trans ih (Nat.le_succ _)
    · exact Nat.le_refl _

/-- The head of a `dropWhile` residue falsifies the predicate. -/
theorem dropWhile_head_false {α : Type} (p : α → Bool) (l : List α) :
    ∀ a rest, l.dropWhile p = a :: rest → p a = false := by
  induction l with
  | nil => intro a rest h; simp [List.dropWhile] at h
  | cons b l ih =>
    intro a rest h
    rw [List.dropWhile_cons] at h
    by_cases hb : p b = true
    · rw [if_pos hb] at h; exact ih a rest h
    · rw [if_neg hb] at h
      cases h
      simpa using hb

/-- Feeding a whitespace-free run into the split worker only extends the
current word. -/
theorem splitWsCore_nonspace_append :
    ∀ (w l cur : List Char), (∀ c ∈ w, pyIsSpace c = false) →
      splitWsCore (w ++ l) cur = splitWsCore l (w.reverse ++ cur)
  | [], l, cur, _ => by simp
  | c :: w, l, cur, hw => by
    have hc : pyIsSpace c = false := hw c (List.mem_cons_self c w)
    have hstep : splitWsCore ((c :: w) ++ l) cur = splitWsCore (w ++ l) (c :: cur) := by
      show splitWsCore (c :: (w ++ l)) cur = splitWsCore (w ++ l) (c :: cur)
      simp only [splitWsCore, hc, Bool.false_eq_true, if_false]
    rw [hstep, splitWsCore_nonspace_append w l (c :: cur)
      (fun d hd => hw d (List.mem_cons_of_mem c hd))]
    simp [List.append_assoc]

/-- Splitting a word followed by a space peels off exactly that word. -/
theorem splitWs_append_space (w rest : List Char) (hne : w ≠ [])
    (hw : ∀ c ∈ w, pyIsSpace c = false) :
    splitWs (w ++ ' ' :: rest) = w :: splitWs rest := by
  unfold splitWs
  rw [splitWsCore_nonspace_append w (' ' :: rest) [] hw]
  simp only [List.append_nil, splitWsCore]
  rw [if_pos (by decide)]
  rw [if_neg (fun h => hne (by simpa using h))]
  simp

/-- Splitting a nonempty whitespace-free string yields that one word. -/
theorem splitWs_single_word (w : List Char) (hne : w ≠ [])
    (hw : ∀ c ∈ w, pyIsSpace c = false) :
    splitWs w = [w] := by
  unfold splitWs
  have h := splitWsCore_nonspace_append w [] [] hw
  rw [List.append_nil] at h
  rw [h]
  simp only [splitWsCore, List.append_nil]
  rw [if_neg (fun h0 => hne (by simpa using h0))]
  simp

/-- Every word produced by the split worker is nonempty and
whitespace-free, provided the running word is whitespace-free. -/
theorem splitWsCore_words :
    ∀ (l cur : List Char), (∀ c ∈ cur, pyIsSpace c = false) →
      ∀ w ∈ splitWsCore l cur, w ≠ [] ∧ ∀ c ∈ w, pyIsSpace c = false
  | [], cur, hcur => by
    intro w hw
    simp only [splitWsCore] at hw
    split at hw
    · simp at hw
    · rename_i h
      simp only [List.mem_singleton] at hw
      subst hw
      refine ⟨by simpa using h, fun c hc => hcur c (by simpa using hc)⟩
  | c :: cs, cur, hcur => by
    intro w hw
    simp only [splitWsCore] at hw
    by_cases hc : pyIsSpace c = true
    · rw [if_pos hc] at hw
      by_cases hcur0 : cur = []
      · rw [if_pos hcur0] at hw
        exact splitWsCore_words cs [] (by simp) w hw
      · rw [if_neg hcur0] at hw
        rcases List.mem_cons.mp hw with rfl | hmem
        · refine ⟨by simpa using hcur0, fun d hd => hcur d (by simpa using hd)⟩
        · exact splitWsCore_words cs [] (by simp) w hmem
    · rw [if_neg hc] at hw
      refine splitWsCore_words cs (c :: cur) ?_ w hw
      intro d hd
      rcases List.mem_cons.mp hd with rfl | hmem
      · simpa using hc
      · exact hcur d hmem

/-- Every word of `splitWs` is nonempty and whitespace-free. -/
theorem splitWs_words (l : List Char) :
    ∀ w ∈ splitWs l, w ≠ [] ∧ ∀ c ∈ w, pyIsSpace c = false :=
  splitWsCore_words l [] (by simp)

/-- Characters of the split worker's output come from the input or the
running word. -/
theorem splitWsCore_chars :
    ∀ (l cur : List Char), ∀ w ∈ splitWsCore l cur, ∀ c ∈ w, c ∈ l ∨ c ∈ cur
  | [], cur => by
    intro w hw c hc
    simp only [splitWsCore] at hw
    split at hw
    · simp at hw
    · simp only [List.mem_singleton] at hw
      subst hw
      exact Or.inr (by simpa using hc)
  | a :: cs, cur => by
    intro w hw c hc
    simp only [splitWsCore] at hw
    by_cases ha : pyIsSpace a = true
    · rw [if_pos ha] at hw
      by_cases hcur0 : cur = []
      · rw [if_pos hcur0] at hw
        rcases splitWsCore_chars cs [] w hw c hc with h | h
        · exact Or.inl (List.mem_cons_of_mem a h)
        · simp at h
      · rw [if_neg hcur0] at hw
        rcases List.mem_cons.mp hw with rfl | hmem
        · exact Or.inr (by simpa using hc)
        · rcases splitWsCore_chars cs [] w hmem c hc with h | h
          · exact Or.inl (List.mem_cons_of_mem a h)
          · simp at h
    · rw [if_neg ha] at hw
      rcases splitWsCore_chars cs (a :: cur) w hw c hc with h | h
      · exact Or.inl (List.mem_cons_of_mem a h)
      · rcases List.mem_cons.mp h with rfl | hmem
        · exact Or.inl (List.mem_cons_self c cs)
        · exact Or.inr hmem

/-- Characters of `splitWs` words come from the input. -/
theorem splitWs_chars (l : List Char) :
    ∀ w ∈ splitWs l, ∀ c ∈ w, c ∈ l := by
  intro w hw c hc
  rcases splitWsCore_chars l [] w hw c hc with h | h
  · exact h
  · simp at h

/-- Characters of a joined list come from the separator or a part. -/
theorem mem_joinSep (sep : List Char) :
    ∀ (ws : List (List Char)), ∀ c ∈ joinSep sep ws, c ∈ sep ∨ ∃ w ∈ ws, c ∈ w
  | [] => by intro c hc; simp [joinSep] at hc
  | [w] => by
    intro c hc
    exact Or.inr ⟨w, by simp, by simpa [joinSep] using hc⟩
  | w :: x :: ws => by
    intro c hc
    have hj : joinSep sep (w :: x :: ws) = w ++ sep ++ joinSep sep (x :: ws) := rfl
    rw [hj] at hc
    rcases List.mem_append.mp hc with h1 | h2
    · rcases List.mem_append.mp h1 with ha | hb
      · exact Or.inr ⟨w, List.mem_cons_self w _, ha⟩
      · exact Or.inl hb
    · rcases mem_joinSep sep (x :: ws) c h2 with h | ⟨u, hu, hcu⟩
      · exact Or.inl h
      · exact Or.inr ⟨u, List.mem_cons_of_mem w hu, hcu⟩

/-- Splitting the space-joined word list recovers the words. -/
theorem splitWs_joinSep_space :
    ∀ (ws : List (List Char)),
      (∀ w ∈ ws, w ≠ [] ∧ ∀ c ∈ w, pyIsSpace c = false) →
      splitWs (joinSep [' '] ws) = ws
  | [], _ => rfl
  | [w], h => by
    simp only [joinSep]
    exact splitWs_single_word w (h w (by simp)).1 (h w (by simp)).2
  | w :: x :: ws, h => by
    have hj : joinSep [' '] (w :: x :: ws) = w ++ ' ' :: joinSep [' '] (x :: ws) := by
      show w ++ [' '] ++ joinSep [' '] (x :: ws) = _
      rw [List.append_assoc]
      rfl
    rw [hj, splitWs_append_space w _ (h w (by simp)).1 (h w (by simp)).2]
    rw [splitWs_joinSep_space (x :: ws) (fun u hu => h u (List.mem_cons_of_mem w hu))]

/-- Whitespace compaction is idempotent. -/
theorem compactWs_idem (l : List Char) : compactWs (compactWs l) = compactWs l := by
  unfold compactWs
  rw [splitWs_joinSep_space (splitWs l) (splitWs_words l)]

/-- The defining equation of `rsplitLastSpace`. -/
theorem rsplitLastSpace_eq (l : List Char) :
    rsplitLastSpace l =
      match l.reverse.dropWhile (fun d => d ≠ ' ') with
      | [] => l
      | _ :: rest => rest.reverse := rfl

/-- Without a space, `rsplit(" ", 1)[0]` is the whole string. -/
theorem rsplitLastSpace_of_no_space (l : List Char) (h : ' ' ∉ l) :
    rsplitLastSpace l = l := by
  rw [rsplitLastSpace_eq]
  have hnil : l.reverse.dropWhile (fun d => d ≠ ' ') = [] := by
    rw [List.dropWhile_eq_nil_iff]
    intro x hx
    simp only [ne_eq, decide_eq_true_eq]
    intro hxe
    exact h (hxe ▸ List.mem_reverse.mp hx)
  rw [hnil]

/-- With a space present, the string decomposes as the `rsplit` value,
the last space, and a space-free tail. -/
theorem rsplitLastSpace_spec (l : List Char) (h : ' ' ∈ l) :
    ∃ t, l = rsplitLastSpace l ++ ' ' :: t ∧ ' ' ∉ t := by
  have hne : l.reverse.dropWhile (fun d => d ≠ ' ') ≠ [] := by
    intro hnil
    rw [List.dropWhile_eq_nil_iff] at hnil
    have hmem := hnil ' ' (List.mem_reverse.mpr h)
    simp at hmem
  obtain ⟨a, rest, hd⟩ : ∃ a rest, l.reverse.dropWhile (fun d => d ≠ ' ') = a :: rest := by
    cases hcase : l.reverse.dropWhile (fun d => d ≠ ' ') with
    | nil => exact absurd hcase hne
    | cons a rest => exact ⟨a, rest, rfl⟩
  have ha : a = ' ' := by
    have hhead := dropWhile_head_false (fun d => d ≠ ' ') l.reverse a rest hd
    simpa using hhead
  subst ha
  have hdecomp := List.takeWhile_append_dropWhile (p := fun d => d ≠ ' ') (l := l.reverse)
  rw [hd] at hdecomp
  have hl : l = rest.reverse ++ ' ' :: (l.reverse.takeWhile (fun d => d ≠ ' ')).reverse := by
    have h0 : l = (l.reverse.takeWhile (fun d => d ≠ ' ') ++ ' ' :: rest).reverse := by
      rw [hdecomp, List.reverse_reverse]
    conv_lhs => rw [h0, List.reverse_append, List.reverse_cons, List.append_assoc]
    rfl
  have hr : rsplitLastSpace l = rest.reverse := by
    rw [rsplitLastSpace_eq, hd]
  refine ⟨(l.reverse.takeWhile (fun d => d ≠ ' ')).reverse, ?_, ?_⟩
  · rw [hr]; exact hl
  · intro hsp
    have hmem := List.mem_takeWhile_imp (List.mem_reverse.mp hsp)
    simp at hmem

/-- `rsplit(" ", 1)[0]` never lengthens the string. -/
theorem rsplitLastSpace_length_le (l : List Char) :
    (rsplitLastSpace l).length ≤ l.length := by
  rw [rsplitLastSpace_eq]
  split
  · exact Nat.le_refl _
  · rename_i a rest hd
    have h1 : (l.reverse.dropWhile (fun d => d ≠ ' ')).length ≤ l.reverse.length :=
      length_dropWhile_le_len _ _
    rw [hd] at h1
    simp only [List.length_cons, List.length_reverse] at h1
    simp only [List.length_reverse]
    omega

/-- The defining equation of `extract_transcript_passage`. -/
theorem extract_transcript_passage_eq (full_text : List Char) (max_chars : Nat) :
    extract_transcript_passage full_text max_chars =
      if (compactWs full_text).length ≤ max_chars then compactWs full_text
      else rsplitLastSpace ((compactWs full_text).take max_chars) ++ ['.', '.', '.'] := rfl

/-! ### Claims C3, C4, C5: the transcript passage compactor -/

/-- C3 counterexample: the claim says the returned passage always has
length at most the configured maximum, but on input `"ab cd ef"` with a
positive budget of `7` the code returns `"ab cd..."` of length `8`. -/
theorem extract_passage_length_exceeds_budget :
    0 < 7 ∧ ¬ ((extract_transcript_passage ("ab cd ef".data) 7).length ≤ 7) := by decide

/-- C3 (amended): for every transcript text and positive budget, the
passage has length at most budget + 3; when no truncation happens it is
exactly the compacted text (so within budget); when truncation happens
the result ends with the literal `"..."`, and — provided a space occurs
within the first `budget` compacted characters — the kept prefix ends at
the last such space, so no word is split. -/
theorem extract_passage_invariant_amended (full_text : List Char) (budget : Nat)
    (_hpos : 0 < budget) :
    (extract_transcript_passage full_text budget).length ≤ budget + 3
    ∧ ((compactWs full_text).length ≤ budget →
        extract_transcript_passage full_text budget = compactWs full_text)
    ∧ (budget < (compactWs full_text).length →
        (∃ r, extract_transcript_passage full_text budget = r ++ ['.', '.', '.'])
        ∧ (' ' ∈ (compactWs full_text).take budget →
            ∃ r t, (compactWs full_text).take budget = r ++ ' ' :: t ∧ ' ' ∉ t
              ∧ extract_transcript_passage full_text budget = r ++ ['.', '.', '.'])) := by
  refine ⟨?_, ?_, ?_⟩
  · by_cases hle : (compactWs full_text).length ≤ budget
    · rw [extract_transcript_passage_eq, if_pos hle]
      omega
    · rw [extract_transcript_passage_eq, if_neg hle]
      have h1 : (rsplitLastSpace ((compactWs full_text).take budget)).length
          ≤ ((compactWs full_text).take budget).length := rsplitLastSpace_length_le _
      have h2 : ((compactWs full_text).take budget).length ≤ budget := by
        simp [List.length_take]
      simp only [List.length_append, List.length_cons, List.length_nil]
      omega
  · intro hle
    rw [extract_transcript_passage_eq, if_pos hle]
  · intro hgt
    have hneg : ¬ ((compactWs full_text).length ≤ budget) := by omega
    refine ⟨⟨rsplitLastSpace ((compactWs full_text).take budget), ?_⟩, ?_⟩
    · rw [extract_transcript_passage_eq, if_neg hneg]
    · intro hsp
      obtain ⟨t, ht, hnt⟩ := rsplitLastSpace_spec _ hsp
      refine ⟨rsplitLastSpace ((compactWs full_text).take budget), t, ht, hnt, ?_⟩
      rw [extract_transcript_passage_eq, if_neg hneg]

/-- Witness for the amended C3 at input `"ab cd ef"` with budget 7. -/
theorem extract_passage_invariant_amended_witness :
    0 < 7 ∧ (extract_transcript_passage ("ab cd ef".data) 7).length ≤ 7 + 3 :=
  ⟨by decide, (extract_passage_invariant_amended ("ab cd ef".data) 7 (by decide)).1⟩

/-- C4: whenever the compacted text is longer than the budget, the output
is the first `budget` compacted characters trimmed back to the last
preceding space with `"..."` appended, its length is that trimmed prefix
plus three, the trimmed prefix ends exactly at the last space of the
window when the window has one, and it is the whole window otherwise
(the documented no-space edge case). -/
theorem extract_passage_truncation_structure (full_text : List Char) (budget : Nat)
    (htrunc : budget < (compactWs full_text).length) :
    extract_transcript_passage full_text budget
        = rsplitLastSpace ((compactWs full_text).take budget) ++ ['.', '.', '.']
    ∧ (extract_transcript_passage full_text budget).length
        = (rsplitLastSpace ((compactWs full_text).take budget)).length + 3
    ∧ (' ' ∈ (compactWs full_text).take budget →
        ∃ t, (compactWs full_text).take budget
            = rsplitLastSpace ((compactWs full_text).take budget) ++ ' ' :: t ∧ ' ' ∉ t)
    ∧ (' ' ∉ (compactWs full_text).take budget →
        rsplitLastSpace ((compactWs full_text).take budget)
          = (compactWs full_text).take budget) := by
  have hif : extract_transcript_passage full_text budget
      = rsplitLastSpace ((compactWs full_text).take budget) ++ ['.', '.', '.'] := by
    rw [extract_transcript_passage_eq, if_neg (by omega)]
  refine ⟨hif, ?_, ?_, ?_⟩
  · rw [hif]
    simp [List.length_append]
  · intro hsp
    exact rsplitLastSpace_spec _ hsp
  · intro hsp
    exact rsplitLastSpace_of_no_space _ hsp

/-- Witness for C4 at input `"ab cd ef"` with budget 5. -/
theorem extract_passage_truncation_structure_witness :
    5 < (compactWs ("ab cd ef".data)).length ∧
      extract_transcript_passage ("ab cd ef".data) 5
        = rsplitLastSpace ((compactWs ("ab cd ef".data)).take 5) ++ ['.', '.', '.'] :=
  ⟨by decide, (extract_passage_truncation_structure ("ab cd ef".data) 5 (by decide)).1⟩

/-- C5: an already-compact string within budget is returned unchanged;
without truncation the compactor is idempotent; and the concrete example
`"a  b\n\nc"` with any budget of at least 5 yields `"a b c"`. -/
theorem extract_passage_compaction_idempotent :
    (∀ (s : List Char) (budget : Nat), compactWs s = s → s.length ≤ budget →
        extract_transcript_passage s budget = s)
    ∧ (∀ (s : List Char) (budget : Nat), (compactWs s).length ≤ budget →
        extract_transcript_passage (extract_transcript_passage s budget) budget
          = extract_transcript_passage s budget)
    ∧ (∀ budget : Nat, 5 ≤ budget →
        extract_transcript_passage ("a  b\n\nc".data) budget = "a b c".data) := by
  refine ⟨?_, ?_, ?_⟩
  · intro s budget hcomp hlen
    rw [extract_transcript_passage_eq, hcomp, if_pos hlen]
  · intro s budget hlen
    have h1 : extract_transcript_passage s budget = compactWs s := by
      rw [extract_transcript_passage_eq, if_pos hlen]
    rw [h1, extract_transcript_passage_eq, compactWs_idem, if_pos hlen]
  · intro budget hb
    have hc : compactWs ("a  b\n\nc".data) = "a b c".data := by decide
    have h5 : ("a b c".data).length = 5 := by decide
    rw [extract_transcript_passage_eq, hc, if_pos (by omega)]

/-- Witness for C5 at the documented example with budget 5. -/
theorem extract_passage_compaction_idempotent_witness :
    5 ≤ 5 ∧ extract_transcript_passage ("a  b\n\nc".data) 5 = "a b c".data :=
  ⟨by decide, extract_passage_compaction_idempotent.2.2 5 (by decide)⟩

/-! ### Claims C6, C10: the filename sanitizer -/

/-- Every character surviving the per-character filter is accepted by the
predicate or is a space, dash or underscore. -/
theorem sanitizeSafe_chars (isAlnum : Char → Bool) (text : List Char) :
    ∀ c ∈ sanitizeSafe isAlnum text, isAlnum c = true ∨ c ∈ [' ', '-', '_'] := by
  intro c hc
  unfold sanitizeSafe at hc
  rcases List.mem_map.mp hc with ⟨ch, _, rfl⟩
  split
  · rename_i hcond
    rcases Bool.or_eq_true_iff.mp hcond with h | h
    · exact Or.inl h
    · exact Or.inr (by simpa using h)
  · exact Or.inr (by simp)

/-- Every character of the underscore-joined parts is accepted by the
predicate or is a space/dash/underscore, and is never whitespace. -/
theorem sanitizeJoined_chars (isAlnum : Char → Bool) (text : List Char) :
    ∀ c ∈ sanitizeJoined isAlnum text,
      (isAlnum c = true ∨ c ∈ [' ', '-', '_']) ∧ pyIsSpace c = false := by
  intro c hc
  unfold sanitizeJoined at hc
  rcases mem_joinSep _ _ c hc with hsep | ⟨w, hw, hcw⟩
  · have hcu : c = '_' := by simp at hsep; exact hsep
    subst hcu
    exact ⟨Or.inr (by simp), by decide⟩
  · have hw' : w ∈ splitWs (sanitizeSafe isAlnum text) := (List.mem_filter.mp hw).1
    have hns := (splitWs_words _ w hw').2 c hcw
    have hsrc := splitWs_chars _ w hw' c hcw
    exact ⟨sanitizeSafe_chars isAlnum text c hsrc, hns⟩

/-- C6: the sanitizer is total; its output has length at most 120 and
only characters that are alphanumeric or in {space, dash, underscore};
when the joined parts are nonempty the output is their 120-character
truncation (tokens joined by single underscores), and when they are
empty the literal fallback `"youtube_video"` is returned. -/
theorem sanitize_filename_spec (isAlnum : Char → Bool)
    (hA : ∀ c : Char, c.isAlphanum = true → isAlnum c = true) (text : List Char) :
    (sanitize_filename isAlnum text).length ≤ 120
    ∧ (∀ c ∈ sanitize_filename isAlnum text, isAlnum c = true ∨ c ∈ [' ', '-', '_'])
    ∧ (sanitizeJoined isAlnum text ≠ [] →
        sanitize_filename isAlnum text = (sanitizeJoined isAlnum text).take 120)
    ∧ (sanitizeJoined isAlnum text = [] →
        sanitize_filename isAlnum text = "youtube_video".data) := by
  have hfb : ∀ c ∈ ("youtube_video".data), c.isAlphanum = true ∨ c ∈ [' ', '-', '_'] := by
    decide
  refine ⟨?_, ?_, ?_, ?_⟩
  · unfold sanitize_filename
    split
    · decide
    · exact List.length_take_le 120 (sanitizeJoined isAlnum text)
  · intro c hc
    unfold sanitize_filename at hc
    split at hc
    · rcases hfb c hc with h | h
      · exact Or.inl (hA c h)
      · exact Or.inr h
    · exact (sanitizeJoined_chars isAlnum text c (List.mem_of_mem_take hc)).1
  · intro h
    unfold sanitize_filename
    rw [if_neg h]
  · intro h
    unfold sanitize_filename
    rw [if_pos h]

/-- Witness for C6: the ASCII alphanumeric predicate satisfies the
agreement hypothesis, and a concrete title is sanitized within bounds. -/
theorem sanitize_filename_spec_witness :
    (∀ c : Char, c.isAlphanum = true → Char.isAlphanum c = true)
    ∧ (sanitize_filename Char.isAlphanum ("My Video: Part 1!".data)).length ≤ 120 :=
  ⟨fun _ h => h,
   (sanitize_filename_spec Char.isAlphanum (fun _ h => h) ("My Video: Part 1!".data)).1⟩

/-- C10: the sanitizer's output is never empty and contains no
whitespace character of any kind; every character is alphanumeric, a
dash, or an underscore. -/
theorem sanitize_filename_no_whitespace (isAlnum : Char → Bool)
    (hA : ∀ c : Char, c.isAlphanum = true → isAlnum c = true) (text : List Char) :
    sanitize_filename isAlnum text ≠ []
    ∧ ∀ c ∈ sanitize_filename isAlnum text,
        pyIsSpace c = false ∧ (isAlnum c = true ∨ c = '-' ∨ c = '_') := by
  have hfb : ∀ c ∈ ("youtube_video".data),
      pyIsSpace c = false ∧ (c.isAlphanum = true ∨ c = '-' ∨ c = '_') := by
    decide
  constructor
  · unfold sanitize_filename
    split
    · decide
    · rename_i h
      cases hj : sanitizeJoined isAlnum text with
      | nil => exact absurd hj h
      | cons a rest => simp
  · intro c hc
    unfold sanitize_filename at hc
    split at hc
    · rcases hfb c hc with ⟨hns, hclass⟩
      refine ⟨hns, ?_⟩
      rcases hclass with h | h | h
      · exact Or.inl (hA c h)
      · exact Or.inr (Or.inl h)
      · exact Or.inr (Or.inr h)
    · rcases sanitizeJoined_chars isAlnum text c (List.mem_of_mem_take hc) with ⟨hclass, hns⟩
      refine ⟨hns, ?_⟩
      rcases hclass with h | h
      · exact Or.inl h
      · rcases (by simpa using h : c = ' ' ∨ c = '-' ∨ c = '_') with rfl | h' | h'
        · exact absurd hns (by decide)
        · exact Or.inr (Or.inl h')
        · exact Or.inr (Or.inr h')

/-- Witness for C10 at a concrete title containing punctuation. -/
theorem sanitize_filename_no_whitespace_witness :
    (∀ c : Char, c.isAlphanum = true → Char.isAlphanum c = true)
    ∧ sanitize_filename Char.isAlphanum ("My Video: Part 1!".data) ≠ [] :=
  ⟨fun _ h => h,
   (sanitize_filename_no_whitespace Char.isAlphanum (fun _ h => h)
     ("My Video: Part 1!".data)).1⟩

/-! ### Claim C9: transcript joining -/

/-- C9: the joined transcript text equals, in entry order, the stripped
texts of exactly those entries whose raw `text` field is present and
non-empty, joined with single spaces; the documented example yields
`"Hello world"`.  (As in the source, the emptiness filter applies to the
raw field before stripping.) -/
theorem fetch_transcript_join_spec :
    (∀ entries : List TranscriptEntry,
        fetch_transcript_join entries
          = joinStrings " "
              (entries.filterMap (fun e =>
                match e with
                | none => none
                | some s => if s = "" then none else some (String.mk (pyStrip s.data)))))
    ∧ fetch_transcript_join [some "Hello", some "world"] = "Hello world" := by
  constructor
  · intro entries
    unfold fetch_transcript_join
    congr 1
    induction entries with
    | nil => rfl
    | cons e es ih =>
      cases e with
      | none => simpa using ih
      | some s =>
        by_cases hs : s = ""
        · subst hs
          simpa using ih
        · simp [hs]
          simpa using ih
  · rfl

/-! ### Claim C8: passage extraction from the payload -/

/-- A present string value that strips to nonempty is selected. -/
theorem nonEmptyStrVal_of_some (v : Option JValue) (s : String)
    (hv : v = some (JValue.str s)) (hs : pyStrip s.data ≠ []) :
    nonEmptyStrVal v = some s := by
  subst hv
  show (if pyStrip s.data = [] then none else some s : Option String) = some s
  rw [if_neg hs]

/-- C8 counterexample: the claim selects the first key whose value is a
non-empty string, but the code additionally requires the value to be
non-empty after stripping whitespace: on the payload
`[("transcript", " ")]` the value `" "` is a non-empty string, yet the
adapter falls through to the JSON serialization of the payload. -/
theorem extract_passage_whitespace_not_selected :
    (" " : String) ≠ ""
    ∧ _extract_passage [("transcript", JValue.str " ")]
        = "\x7b\"transcript\":\" \"\x7d" := by
  constructor
  · decide
  · rfl

/-- C8 (amended): the adapter selects the value of the first key among
`transcript`, `passage`, `text`, `content` (in that fixed priority
order) whose value is a string with non-whitespace content (non-empty
after stripping); when no such key exists it falls back to the
key-sorted, ASCII-escaped, compact-separator JSON serialization of the
whole payload. -/
theorem extract_passage_priority_spec (payload : List (String × JValue)) :
    (∀ s, lookupKey payload "transcript" = some (JValue.str s) → pyStrip s.data ≠ [] →
        _extract_passage payload = s)
    ∧ (∀ s, nonEmptyStrVal (lookupKey payload "transcript") = none →
        lookupKey payload "passage" = some (JValue.str s) → pyStrip s.data ≠ [] →
        _extract_passage payload = s)
    ∧ (∀ s, nonEmptyStrVal (lookupKey payload "transcript") = none →
        nonEmptyStrVal (lookupKey payload "passage") = none →
        lookupKey payload "text" = some (JValue.str s) → pyStrip s.data ≠ [] →
        _extract_passage payload = s)
    ∧ (∀ s, nonEmptyStrVal (lookupKey payload "transcript") = none →
        nonEmptyStrVal (lookupKey payload "passage") = none →
        nonEmptyStrVal (lookupKey payload "text") = none →
        lookupKey payload "content" = some (JValue.str s) → pyStrip s.data ≠ [] →
        _extract_passage payload = s)
    ∧ (nonEmptyStrVal (lookupKey payload "transcript") = none →
        nonEmptyStrVal (lookupKey payload "passage") = none →
        nonEmptyStrVal (lookupKey payload "text") = none →
        nonEmptyStrVal (lookupKey payload "content") = none →
        _extract_passage payload = _stable_json_dumps payload) := by
  refine ⟨?_, ?_, ?_, ?_, ?_⟩
  · intro s hv hs
    unfold _extract_passage
    rw [nonEmptyStrVal_of_some _ s hv hs]
  · intro s h1 hv hs
    unfold _extract_passage
    rw [h1, nonEmptyStrVal_of_some _ s hv hs]
  · intro s h1 h2 hv hs
    unfold _extract_passage
    rw [h1, h2, nonEmptyStrVal_of_some _ s hv hs]
  · intro s h1 h2 h3 hv hs
    unfold _extract_passage
    rw [h1, h2, h3, nonEmptyStrVal_of_some _ s hv hs]
  · intro h1 h2 h3 h4
    unfold _extract_passage
    rw [h1, h2, h3, h4]

/-- Witness for C8 on the correction agent's payload shape. -/
theorem extract_passage_priority_spec_witness :
    lookupKey [("task", JValue.str "correct_transcript"),
               ("transcript", JValue.str "hello world")] "transcript"
        = some (JValue.str "hello world")
    ∧ _extract_passage [("task", JValue.str "correct_transcript"),
                        ("transcript", JValue.str "hello world")]
        = "hello world" :=
  ⟨rfl,
   (extract_passage_priority_spec
       [("task", JValue.str "correct_transcript"),
        ("transcript", JValue.str "hello world")]).1
     "hello world" rfl (by decide)⟩

/-! ### Claim C2: prompt-cache key derivation -/

/-- C2: the derived cache key is exactly
`promptVersion ++ ":" ++ resolvedModel ++ ":shard-" ++ shardIndex`, where
the shard index is 0 when the configured shard count is at most 1 and
otherwise the CRC-32 of the stable JSON serialization of the passage
wrapper modulo the shard count; as a pure function of its inputs, the
derivation is deterministic, so identical payloads give identical keys
(second conjunct). -/
theorem invoke_llm_cache_key_derivation (promptVersion : String) (shards : Nat)
    (modelName : String) (payload : List (String × JValue)) :
    invoke_llm_cache_key promptVersion shards modelName payload
      = promptVersion ++ ":" ++ resolveModel modelName ++ ":shard-"
        ++ toString (if shards ≤ 1 then 0
            else _crc32_u32 (utf8Bytes (_stable_json_dumps
                [("passage", JValue.str (_extract_passage payload))])) % shards)
    ∧ invoke_llm_cache_key promptVersion shards modelName payload
        = invoke_llm_cache_key promptVersion shards modelName payload := by
  constructor
  · show promptVersion ++ ":" ++ resolveModel modelName ++ ":shard-"
        ++ toString (if shards > 1 then
            _crc32_u32 (utf8Bytes (_stable_json_dumps
              [("passage", JValue.str (_extract_passage payload))])) % shards
          else 0) = _
    by_cases h : shards > 1
    · rw [if_pos h, if_neg (by omega)]
    · rw [if_neg h, if_pos (by omega)]
  · rfl

/-! ### Claim C7: video-id extraction -/

/-- The defining equation of `extract_video_id`. -/
theorem extract_video_id_eq (url : String) :
    extract_video_id url =
      (if (urlparse url).hostname = some "youtu.be" then
        Except.ok (String.mk ((urlparse url).path.data.dropWhile (fun c => c = '/')))
      else if (urlparse url).hostname ∈ allowedHosts.map some then
        match qsValues (parse_qsl (urlparse url).query.data) ("v".data) with
        | v :: _ => Except.ok (String.mk v)
        | [] => Except.error ("Unsupported YouTube URL format: " ++ url)
      else Except.error ("Unsupported YouTube URL format: " ++ url)) := rfl

/-- C7: `youtu.be` URLs yield the path with leading slashes stripped; the
three allowed youtube hosts yield the first `v` query value and fail
without one; every other host fails with the unsupported-URL error; the
three documented examples behave as stated. -/
theorem extract_video_id_spec :
    (∀ url : String, (urlparse url).hostname = some "youtu.be" →
        extract_video_id url
          = Except.ok (String.mk ((urlparse url).path.data.dropWhile (fun c => c = '/'))))
    ∧ (∀ (url : String) (h : String) (v : List Char) (vs : List (List Char)),
        (urlparse url).hostname = some h → h ∈ allowedHosts →
        qsValues (parse_qsl (urlparse url).query.data) ("v".data) = v :: vs →
        extract_video_id url = Except.ok (String.mk v))
    ∧ (∀ (url : String) (h : String),
        (urlparse url).hostname = some h → h ∈ allowedHosts →
        qsValues (parse_qsl (urlparse url).query.data) ("v".data) = [] →
        extract_video_id url = Except.error ("Unsupported YouTube URL format: " ++ url))
    ∧ (∀ url : String,
        (urlparse url).hostname ≠ some "youtu.be" →
        (urlparse url).hostname ∉ allowedHosts.map some →
        extract_video_id url = Except.error ("Unsupported YouTube URL format: " ++ url))
    ∧ extract_video_id "https://www.youtube.com/watch?v=ABC123" = Except.ok "ABC123"
    ∧ extract_video_id "https://youtu.be/XYZ789" = Except.ok "XYZ789"
    ∧ extract_video_id "https://example.com/watch?v=ABC"
        = Except.error ("Unsupported YouTube URL format: https://example.com/watch?v=ABC") := by
  have hne : ∀ (url : String) (h : String), (urlparse url).hostname = some h →
      h ∈ allowedHosts → (urlparse url).hostname ≠ some "youtu.be" := by
    intro url h h1 hmem hcon
    rw [h1] at hcon
    have : h = "youtu.be" := by
      injection hcon
    subst this
    simp [allowedHosts] at hmem
  have hin : ∀ (url : String) (h : String), (urlparse url).hostname = some h →
      h ∈ allowedHosts → (urlparse url).hostname ∈ allowedHosts.map some := by
    intro url h h1 hmem
    rw [h1]
    exact List.mem_map_of_mem some hmem
  refine ⟨?_, ?_, ?_, ?_, ?_, ?_, ?_⟩
  · intro url h1
    rw [extract_video_id_eq, if_pos h1]
  · intro url h v vs h1 hmem hq
    rw [extract_video_id_eq, if_neg (hne url h h1 hmem), if_pos (hin url h h1 hmem), hq]
  · intro url h h1 hmem hq
    rw [extract_video_id_eq, if_neg (hne url h h1 hmem), if_pos (hin url h h1 hmem), hq]
  · intro url h1 h2
    rw [extract_video_id_eq, if_neg h1, if_neg h2]
  · rfl
  · rfl
  · rfl

/-- Witness for C7 at the documented `youtu.be` example. -/
theorem extract_video_id_spec_witness :
    (urlparse "https://youtu.be/XYZ789").hostname = some "youtu.be"
    ∧ extract_video_id "https://youtu.be/XYZ789"
        = Except.ok (String.mk
            ((urlparse "https://youtu.be/XYZ789").path.data.dropWhile (fun c => c = '/'))) :=
  ⟨rfl, extract_video_id_spec.1 "https://youtu.be/XYZ789" rfl⟩

/-! ### Claim C1: stage-output caching -/

/-- A cached stage reads the artifact and performs no invocation. -/
theorem runStage_cached (q : String) (f : String → LLMResponse) (i : String) :
    runStage (some q) f i = Except.ok (q, 0) := rfl

/-- C1: (1) with all four artifacts present, a run returns exactly the
artifact contents, leaves the files unchanged and performs zero LLM
invocations; (2) a second run — with any passage text and any stage
agents — returns the identical result, so paths (functions of the stem
alone) and contents are byte-identical; (3) per stage: whenever a
stage's artifact exists at run time, any successful run returns its
content verbatim for that stage with zero invocations for it. -/
theorem run_pipeline_cached_idempotent :
    (∀ (files : StageFiles) (p c t d freshPassage : String)
        (cf tf df : String → LLMResponse),
        files.passage = some p → files.corrected = some c →
        files.translated = some t → files.dialogue = some d →
        run_pipeline files freshPassage cf tf df
          = Except.ok ⟨files, p, c, t, d, 0, 0, 0⟩)
    ∧ (∀ (files : StageFiles) (p c t d fresh1 fresh2 : String)
        (cf1 tf1 df1 cf2 tf2 df2 : String → LLMResponse),
        files.passage = some p → files.corrected = some c →
        files.translated = some t → files.dialogue = some d →
        run_pipeline files fresh2 cf2 tf2 df2
          = run_pipeline files fresh1 cf1 tf1 df1)
    ∧ (∀ (files : StageFiles) (fresh : String) (cf tf df : String → LLMResponse)
        (r : PipelineResult),
        run_pipeline files fresh cf tf df = Except.ok r →
        (∀ q, files.passage = some q → r.passageOut = q)
        ∧ (∀ q, files.corrected = some q → r.correctedOut = q ∧ r.callsCorrected = 0)
        ∧ (∀ q, files.translated = some q → r.translatedOut = q ∧ r.callsTranslated = 0)
        ∧ (∀ q, files.dialogue = some q → r.dialogueOut = q ∧ r.callsDialogue = 0)) := by
  have main : ∀ (files : StageFiles) (p c t d freshPassage : String)
      (cf tf df : String → LLMResponse),
      files.passage = some p → files.corrected = some c →
      files.translated = some t → files.dialogue = some d →
      run_pipeline files freshPassage cf tf df
        = Except.ok ⟨files, p, c, t, d, 0, 0, 0⟩ := by
    intro files p c t d fresh cf tf df hp hc ht hd
    obtain ⟨fp, fc, ft, fd⟩ := files
    simp only at hp hc ht hd
    subst hp; subst hc; subst ht; subst hd
    rfl
  refine ⟨main, ?_, ?_⟩
  · intro files p c t d fresh1 fresh2 cf1 tf1 df1 cf2 tf2 df2 hp hc ht hd
    rw [main files p c t d fresh2 cf2 tf2 df2 hp hc ht hd,
        main files p c t d fresh1 cf1 tf1 df1 hp hc ht hd]
  · intro files fresh cf tf df r hok
    unfold run_pipeline run_pipeline_from at hok
    cases h1 : runStage files.corrected cf (files.passage.getD fresh) with
    | error e => rw [h1] at hok; simp at hok
    | ok pr1 =>
      obtain ⟨corrected, c1⟩ := pr1
      rw [h1] at hok
      dsimp only at hok
      cases h2 : runStage files.translated tf corrected with
      | error e => rw [h2] at hok; simp at hok
      | ok pr2 =>
        obtain ⟨translated, c2⟩ := pr2
        rw [h2] at hok
        dsimp only at hok
        cases h3 : runStage files.dialogue df translated with
        | error e => rw [h3] at hok; simp at hok
        | ok pr3 =>
          obtain ⟨dlg, c3⟩ := pr3
          rw [h3] at hok
          dsimp only at hok
          simp only [Except.ok.injEq] at hok
          subst hok
          refine ⟨?_, ?_, ?_, ?_⟩
          · intro q hq
            simp [hq]
          · intro q hq
            rw [hq, runStage_cached] at h1
            simp only [Except.ok.injEq, Prod.mk.injEq] at h1
            exact ⟨h1.1.symm, h1.2.symm⟩
          · intro q hq
            rw [hq, runStage_cached] at h2
            simp only [Except.ok.injEq, Prod.mk.injEq] at h2
            exact ⟨h2.1.symm, h2.2.symm⟩
          · intro q hq
            rw [hq, runStage_cached] at h3
            simp only [Except.ok.injEq, Prod.mk.injEq] at h3
            exact ⟨h3.1.symm, h3.2.symm⟩

/-- Witness for C1: a store with all four artifacts present yields them
verbatim with zero invocations, for arbitrary concrete agents. -/
theorem run_pipeline_cached_idempotent_witness :
    (⟨some "P", some "C", some "T", some "D"⟩ : StageFiles).passage = some "P"
    ∧ run_pipeline ⟨some "P", some "C", some "T", some "D"⟩ "fresh"
        (fun _ => LLMResponse.text "x") (fun _ => LLMResponse.text "y")
        (fun _ => LLMResponse.text "z")
      = Except.ok ⟨⟨some "P", some "C", some "T", some "D"⟩, "P", "C", "T", "D", 0, 0, 0⟩ :=
  ⟨rfl,
   run_pipeline_cached_idempotent.1 ⟨some "P", some "C", some "T", some "D"⟩
     "P" "C" "T" "D" "fresh"
     (fun _ => LLMResponse.text "x") (fun _ => LLMResponse.text "y")
     (fun _ => LLMResponse.text "z") rfl rfl rfl rfl⟩

end YTPipeline
